import Mathlib

/-!
Verification of the Kingdoms & Warfare engine of this repository
(src/knw): the battle model (models/battle.js), the military-unit model,
the domain model (models/domain.js), the dice utility (utils/dice.js)
and the intrigue-session model.

Modelling conventions.  JavaScript numbers that the code can drive to
NaN are modelled by `JSNum`; JS object fields holding `null` are
`Option`; operations that can throw a TypeError are `Option`-valued
(`none` = thrown) and the dice-notation parser is `Except`-valued.
The real-clock `created`/`updated` timestamp fields and the uuid
generator are outside the model (ids are passed as parameters).
-/

/-- A JS number restricted to what the battle code produces for
`currentTurn`: a natural number, or NaN after a `% 0`. -/
inductive JSNum where
  | nan : JSNum
  | num : Nat → JSNum
deriving DecidableEq, Repr

/-- `list[idx]` in JS: `undefined` (`none`) when out of range or NaN. -/
def jsIdx (l : List String) : JSNum → Option String
  | JSNum.nan => none
  | JSNum.num n => l.get? n

/-- `(t + 1) % len` in JS: `% 0` gives NaN, and NaN propagates. -/
def jsModSucc : JSNum → Nat → JSNum
  | JSNum.nan, _ => JSNum.nan
  | JSNum.num n, len => if len = 0 then JSNum.nan else JSNum.num ((n + 1) % len)

/-- One structured rank of the battle grid (battle.js `grid[rank]`);
a field value `none` is the JS `null` of an empty cell. -/
structure Row where
  left : Option String := none
  center : Option String := none
  right : Option String := none
deriving DecidableEq, Repr

/-- The battle grid (battle.js `createBattle`): three structured ranks
plus the unstructured `reserve` and `not_deployed` lists. -/
structure Grid where
  vanguard : Row := {}
  center : Row := {}
  rear : Row := {}
  reserve : List String := []
  not_deployed : List String := []
deriving DecidableEq, Repr

/-- A unit's position record (battle.js `units[id].position`). -/
structure BPos where
  rank : String
  column : Option String
deriving DecidableEq, Repr

/-- A unit record inside `battle.units` (battle.js `addUnit`). -/
structure BUnit where
  id : String
  domainId : String
  position : BPos
  activated : Bool
  usedReaction : Bool
  tokens : List String
deriving DecidableEq, Repr

/-- Battle log entries (timestamps omitted; only the entry kinds the
embedded operations emit). -/
inductive LogEntry where
  | battle_start (round : Nat)
  | battle_end (winningDomainId : Option String)
  | unit_activated (unitId : String)
  | round_end (round : Nat)
  | round_start (round : Nat)
deriving DecidableEq, Repr

/-- The battle entity (battle.js `createBattle`).  `units` is a JS
object: an insertion-ordered association list with unique keys. -/
structure Battle where
  id : String
  name : String
  phase : String
  round : Nat
  domains : List String
  units : List (String × BUnit)
  grid : Grid
  initiative : List String
  currentTurn : JSNum
  log : List LogEntry
deriving DecidableEq, Repr

/-- battle.js `createBattle` (the uuid is a parameter here). -/
def createBattle (id name : String) : Battle :=
  { id := id, name := name, phase := "setup", round := 0, domains := [],
    units := [], grid := {}, initiative := [], currentTurn := JSNum.num 0,
    log := [] }

/-- Key lookup in the `battle.units` object. -/
def findUnit : List (String × BUnit) → String → Option BUnit
  | [], _ => none
  | (k, v) :: t, u => if k = u then some v else findUnit t u

/-- battle.js `addDomain`. -/
def Battle.addDomain (b : Battle) (domainId : String) : Battle :=
  if b.domains.contains domainId then b
  else { b with domains := b.domains ++ [domainId] }

/-- battle.js `addUnit`: no-op when the unit is already present; when the
domain is absent it adds the domain instead of the unit. -/
def Battle.addUnit (b : Battle) (unitId domainId : String) : Battle :=
  match findUnit b.units unitId with
  | some _ => b
  | none =>
    if ¬ b.domains.contains domainId then b.addDomain domainId
    else
      { b with
        units := b.units ++ [(unitId,
          { id := unitId, domainId := domainId,
            position := { rank := "not_deployed", column := none },
            activated := false, usedReaction := false, tokens := [] })],
        grid := { b.grid with
          not_deployed := b.grid.not_deployed ++ [unitId] } }

/-- `GRID_POSITIONS[column]`: the own properties of the literal
`LEFT/CENTER/RIGHT` map in battle.js.  (Prototype-inherited JS keys are
not modelled; a column hitting one of them is likewise rejected by the
occupancy check, since no grid row owns such a key.) -/
def gridPositionsVal (c : String) : Option String :=
  if c = "LEFT" then some "left"
  else if c = "CENTER" then some "center"
  else if c = "RIGHT" then some "right"
  else none

/-- `battle.grid[rank]` for the structured ranks. -/
def Grid.row? (g : Grid) (r : String) : Option Row :=
  if r = "vanguard" then some g.vanguard
  else if r = "center" then some g.center
  else if r = "rear" then some g.rear
  else none

/-- `row[column]`: `some v` models a defined JS property with value `v`
(`v = none` being JS `null`); `none` models `undefined`. -/
def Row.get (row : Row) (c : String) : Option (Option String) :=
  if c = "left" then some row.left
  else if c = "center" then some row.center
  else if c = "right" then some row.right
  else none

/-- `row[column] = v`.  For a column that is not one of the three grid
keys JS would create a fresh property; the embedded operations only ever
read the three grid keys and the `GRID_POSITIONS` keys back, so dropping
such a write is observationally equal. -/
def Row.set (row : Row) (c : String) (v : Option String) : Row :=
  if c = "left" then { row with left := v }
  else if c = "center" then { row with center := v }
  else if c = "right" then { row with right := v }
  else row

/-- `battle.grid[rank] = row` for the structured ranks. -/
def Grid.setRow (g : Grid) (r : String) (row : Row) : Grid :=
  if r = "vanguard" then { g with vanguard := row }
  else if r = "center" then { g with center := row }
  else if r = "rear" then { g with rear := row }
  else g

/-- JS coerces a `null` property key to the string "null". -/
def colKey : Option String → String
  | none => "null"
  | some s => s

/-- Vacating a unit's current slot, as done by both `removeUnit` and
`deployUnit`: list-filter for the unstructured ranks, null-out for a
structured cell.  `none` models the TypeError JS throws when
`battle.grid[rank]` is `undefined`. -/
def vacate (g : Grid) (unitId rank : String) (column : Option String) :
    Option Grid :=
  if rank = "not_deployed" then
    some { g with not_deployed := g.not_deployed.filter (fun x => x != unitId) }
  else if rank = "reserve" then
    some { g with reserve := g.reserve.filter (fun x => x != unitId) }
  else
    match g.row? rank with
    | none => none
    | some row => some (g.setRow rank (row.set (colKey column) none))

/-- battle.js `removeUnit`. -/
def Battle.removeUnit (b : Battle) (unitId : String) : Option Battle :=
  match findUnit b.units unitId with
  | none => some b
  | some un =>
    match vacate b.grid unitId un.position.rank un.position.column with
    | none => none
    | some g =>
      some { b with
             grid := g,
             initiative := b.initiative.filter (fun x => x != unitId),
             units := b.units.filter (fun p => p.1 != unitId) }

/-- battle.js `removeDomain`: removes the domain id, then cascades
`removeUnit` over the units that belonged to it (unit ids taken from the
original battle, in insertion order); an exception in the cascade
propagates. -/
def Battle.removeDomain (b : Battle) (domainId : String) : Option Battle :=
  let b1 := { b with domains := b.domains.filter (fun x => x != domainId) }
  let unitIds := (b.units.filter (fun p => p.2.domainId == domainId)).map Prod.fst
  unitIds.foldl
    (fun acc uid =>
      match acc with
      | none => none
      | some bb => bb.removeUnit uid)
    (some b1)

/-- The mutation part of battle.js `deployUnit`, after all checks have
passed: vacate the old slot, rewrite the unit's position, occupy the new
slot. -/
def deployMove (b : Battle) (un : BUnit) (unitId rank column : String) :
    Option Battle :=
  match vacate b.grid unitId un.position.rank un.position.column with
  | none => none
  | some g1 =>
    let newPos : BPos :=
      { rank := rank,
        column :=
          if rank = "reserve" ∨ rank = "not_deployed" then none
          else some column }
    let units2 := b.units.map
      (fun p => if p.1 = unitId then (p.1, { p.2 with position := newPos }) else p)
    let g2 :=
      if rank = "not_deployed" then
        { g1 with not_deployed := g1.not_deployed ++ [unitId] }
      else if rank = "reserve" then
        { g1 with reserve := g1.reserve ++ [unitId] }
      else
        match g1.row? rank with
        | some row => g1.setRow rank (row.set column (some unitId))
        | none => g1  -- unreachable: the occupancy check already read this row
    some { b with units := units2, grid := g2 }

/-- battle.js `deployUnit`.  `none` models the TypeError JS throws when
the occupancy check reads `battle.grid[rank][column]` on a rank that is
neither unstructured nor a structured row. -/
def Battle.deployUnit (b : Battle) (unitId rank column : String) :
    Option Battle :=
  match findUnit b.units unitId with
  | none => some b
  | some un =>
    if rank ≠ "reserve" ∧ rank ≠ "not_deployed" ∧ gridPositionsVal column = none then
      some b
    else if rank ≠ "reserve" ∧ rank ≠ "not_deployed" then
      match b.grid.row? rank with
      | none => none
      | some row =>
        if row.get column ≠ some none then some b
        else deployMove b un unitId rank column
    else deployMove b un unitId rank column

/-- battle.js `activateUnit`. -/
def Battle.activateUnit (b : Battle) (unitId : String) : Battle :=
  if b.phase ≠ "battle" then b
  else
    match findUnit b.units unitId with
    | none => b
    | some _ =>
      if jsIdx b.initiative b.currentTurn ≠ some unitId then b
      else
        { b with
          units := b.units.map
            (fun p =>
              if p.1 = unitId then (p.1, { p.2 with activated := true }) else p),
          log := b.log ++ [LogEntry.unit_activated unitId] }

/-- battle.js `endTurn`.  The departing unit's `activated` flag is reset
only when the initiative entry is truthy and names a present unit; the
turn counter advances modulo the initiative length (NaN when empty). -/
def Battle.endTurn (b : Battle) : Battle :=
  if b.phase ≠ "battle" then b
  else
    let currentUnitId := jsIdx b.initiative b.currentTurn
    let units1 :=
      match currentUnitId with
      | some uid =>
        if uid ≠ "" ∧ (findUnit b.units uid).isSome then
          b.units.map
            (fun p =>
              if p.1 = uid then (p.1, { p.2 with activated := false }) else p)
        else b.units
      | none => b.units
    let newTurn := jsModSucc b.currentTurn b.initiative.length
    if newTurn = JSNum.num 0 then
      { b with
        units := units1.map (fun p => (p.1, { p.2 with usedReaction := false })),
        currentTurn := newTurn,
        round := b.round + 1,
        log := b.log ++
          [LogEntry.round_end ((b.round + 1) - 1),
           LogEntry.round_start (b.round + 1)] }
    else
      { b with units := units1, currentTurn := newTurn }

/-! The military-unit model (the unit model file of the repository):
casualty die and conditions. -/

/-- `unit.casualtyDie`. -/
structure CasualtyDie where
  current : Int
  max : Int
deriving DecidableEq, Repr

/-- `unit.stats`. -/
structure UnitStats where
  attack : Int
  power : Int
  defense : Int
  toughness : Int
  morale : Int
  command : Int
  attacks : Int
  damage : Int
deriving DecidableEq, Repr

/-- A military unit (unit model `createUnit` shape; timestamps omitted). -/
structure KUnit where
  id : String
  name : String
  type : String
  tier : Nat
  stats : UnitStats
  casualtyDie : CasualtyDie
  traits : List String
  conditions : List String
  experience : Int
  battles : Nat
deriving DecidableEq, Repr

/-- unit model `takeCasualties`: clamp the casualty die at 0 and add the
"broken" condition (without duplicating it) when it reaches 0. -/
def takeCasualties (u : KUnit) (casualties : Int) : KUnit :=
  let newCasualtyDie := max 0 (u.casualtyDie.current - casualties)
  let u1 := { u with casualtyDie := { u.casualtyDie with current := newCasualtyDie } }
  if newCasualtyDie = 0 ∧ u.conditions.contains "broken" = false then
    { u1 with conditions := u1.conditions ++ ["broken"] }
  else u1

/-- unit model `rallyCasualties`: clamp the casualty die at its max and
drop the "broken" condition when the die becomes positive. -/
def rallyCasualties (u : KUnit) (casualties : Int) : KUnit :=
  let newCasualtyDie := min u.casualtyDie.max (u.casualtyDie.current + casualties)
  let u1 := { u with casualtyDie := { u.casualtyDie with current := newCasualtyDie } }
  if 0 < newCasualtyDie ∧ u.conditions.contains "broken" = true then
    { u1 with conditions := u1.conditions.filter (fun c => c != "broken") }
  else u1

/-! The domain model (models/domain.js): resources. -/

/-- `domain.skills`. -/
structure DomainSkills where
  diplomacy : Int
  espionage : Int
  lore : Int
  operations : Int
deriving DecidableEq, Repr

/-- `domain.defenseScores` and `domain.defenseLevels` share this shape. -/
structure DefenseTriple where
  communications : Int
  resolve : Int
  resources : Int
deriving DecidableEq, Repr

/-- A political domain (models/domain.js `createDomain` shape;
timestamps omitted). -/
structure Domain where
  id : String
  name : String
  size : Int
  skills : DomainSkills
  defenseScores : DefenseTriple
  defenseLevels : DefenseTriple
  resources : Int
  units : List String
  officers : List String
deriving DecidableEq, Repr

/-- domain.js `addResources` (no clamp). -/
def addResources (d : Domain) (amount : Int) : Domain :=
  { d with resources := d.resources + amount }

/-- domain.js `removeResources`: `Math.max(0, resources - amount)`. -/
def removeResources (d : Domain) (amount : Int) : Domain :=
  { d with resources := max 0 (d.resources - amount) }

/-! The intrigue-session model (the intrigue model of the repository). -/

/-- Intrigue log entries (timestamps omitted). -/
inductive ILog where
  | intrigue_start
  | intrigue_end
deriving DecidableEq, Repr

/-- An intrigue session (`createIntrigue` shape; the `turns` list and
timestamps are omitted: no embedded operation touches them). -/
structure Intrigue where
  id : String
  name : String
  phase : String
  domains : List String
  initiator : Option String
  turnOrder : List String
  currentDomainIndex : Nat
  log : List ILog
deriving DecidableEq, Repr

/-- `createIntrigue` (the uuid is a parameter here). -/
def createIntrigue (id name : String) : Intrigue :=
  { id := id, name := name, phase := "setup", domains := [],
    initiator := none, turnOrder := [], currentDomainIndex := 0, log := [] }

/-- Intrigue `addDomain`. -/
def Intrigue.addDomain (i : Intrigue) (d : String) : Intrigue :=
  if i.domains.contains d then i
  else { i with domains := i.domains ++ [d] }

/-- Intrigue `setInitiator`: adds the domain instead when it is not yet a
member. -/
def Intrigue.setInitiator (i : Intrigue) (d : String) : Intrigue :=
  if ¬ i.domains.contains d then i.addDomain d
  else { i with initiator := some d }

/-- Intrigue `startIntrigue`: guarded by phase = setup, a truthy
initiator (JS `!initiator` also rejects the empty string) and at least
two domains; on success enters the active phase, computes the turn order
(initiator first, then the other domains in insertion order) when it is
empty, and logs the start. -/
def Intrigue.startIntrigue (i : Intrigue) : Intrigue :=
  if i.phase ≠ "setup" then i
  else
    match i.initiator with
    | none => i
    | some d =>
      if d = "" then i
      else if i.domains.length < 2 then i
      else
        let i1 := { i with phase := "active" }
        let i2 :=
          if i1.turnOrder.length = 0 then
            { i1 with turnOrder := d :: i1.domains.filter (fun x => x != d) }
          else i1
        { i2 with log := i2.log ++ [ILog.intrigue_start] }

/-! The dice utility (utils/dice.js): notation parsing and rolling.
Randomness is abstracted by an oracle `g : Nat → Nat → Nat`, where
`g i s` is the i-th call to `rollDie(s)` in a `rollDice` loop; the JS
`Math.floor(Math.random() * sides) + 1` always lands in `[1, max 1 sides]`,
which theorems take as a hypothesis on the oracle. -/

/-- dice.js `rollDice(count, sides)` under the oracle `g`. -/
def rollDice (g : Nat → Nat → Nat) (count sides : Nat) : List Nat :=
  (List.range count).map (fun i => g i sides)

/-- Sum of a list of rolls, as the JS `reduce((a, r) => a + r, 0)`. -/
def natSum (l : List Nat) : Nat :=
  l.foldl (fun a x => a + x) 0

/-- `\d` as a character test. -/
def isDigitCh (c : Char) : Bool := c.isDigit

/-- `parseInt` on a digit run. -/
def digitsVal (cs : List Char) : Nat :=
  cs.foldl (fun a c => a * 10 + (c.toNat - '0'.toNat)) 0

/-- Matching the dice-notation regex at the start of `cs`: an optional
greedy digit run, `d` or `D` (the regex is case-insensitive), a required
digit run, and an optional sign-and-digit-run modifier.  Returns the
count digits, the sides digits and the modifier. -/
def matchAt (cs : List Char) :
    Option (List Char × List Char × Option (Char × List Char)) :=
  let cnt := cs.takeWhile isDigitCh
  match cs.dropWhile isDigitCh with
  | [] => none
  | c :: rest2 =>
    if c = 'd' ∨ c = 'D' then
      let sd := rest2.takeWhile isDigitCh
      if sd = [] then none
      else
        match rest2.dropWhile isDigitCh with
        | s :: rest4 =>
          if s = '+' ∨ s = '-' then
            let md := rest4.takeWhile isDigitCh
            if md = [] then some (cnt, sd, none) else some (cnt, sd, some (s, md))
          else some (cnt, sd, none)
        | [] => some (cnt, sd, none)
    else none

/-- The JS `string.match(regex)` search: the leftmost position where the
notation regex matches. -/
def findMatch : List Char → Option (List Char × List Char × Option (Char × List Char))
  | [] => matchAt []
  | c :: t =>
    match matchAt (c :: t) with
    | some m => some m
    | none => findMatch t

/-- The result record of dice.js `rollFromNotation` (the JS `notation`
string field is `notationStr`; the modifier is kept as sign and value). -/
structure RollResult where
  notationStr : String
  rolls : List Nat
  modifier : Option (Char × Nat)
  result : Int
deriving DecidableEq, Repr

/-- dice.js `rollFromNotation`: parse the notation by regex search and
roll; a failed search throws the invalid-notation error. -/
def rollFromNotation (g : Nat → Nat → Nat) (s : String) :
    Except String RollResult :=
  match findMatch s.data with
  | none => Except.error ("Invalid dice notation: " ++ s)
  | some (cnt, sd, md) =>
    let count := if cnt = [] then 1 else digitsVal cnt
    let sides := digitsVal sd
    let rolls := rollDice g count sides
    let sum : Int := (natSum rolls : Nat)
    let result : Int :=
      match md with
      | some (op, m) =>
        if op = '+' then sum + digitsVal m
        else if op = '-' then sum - digitsVal m
        else sum
      | none => sum
    Except.ok
      { notationStr := s, rolls := rolls,
        modifier := md.map (fun pr => (pr.1, digitsVal pr.2)),
        result := result }

/-- The dice-notation grammar, stated independently of the parser: an
optional digit run, a `d` or `D`, a non-empty digit run, and an optional
sign with a non-empty digit run. -/
def IsNotationWord (w : List Char) : Prop :=
  ∃ cnt dch sd md,
    w = cnt ++ dch :: (sd ++ md)
    ∧ (∀ c ∈ cnt, isDigitCh c = true)
    ∧ (dch = 'd' ∨ dch = 'D')
    ∧ sd ≠ [] ∧ (∀ c ∈ sd, isDigitCh c = true)
    ∧ (md = [] ∨
        ∃ sgn mdig, md = sgn :: mdig ∧ (sgn = '+' ∨ sgn = '-')
          ∧ mdig ≠ [] ∧ (∀ c ∈ mdig, isDigitCh c = true))

/-- A string matches the notation grammar somewhere (the JS unanchored
regex search). -/
def MatchesNotation (s : String) : Prop :=
  ∃ pre w post, s.data = pre ++ (w ++ post) ∧ IsNotationWord w

/-! ## C9: resource clamping at zero -/

/-- A concrete domain with zero resources. -/
def dZero : Domain :=
  { id := "d", name := "d", size := 1,
    skills := { diplomacy := 0, espionage := 0, lore := 0, operations := 0 },
    defenseScores := { communications := 10, resolve := 10, resources := 10 },
    defenseLevels := { communications := 0, resolve := 0, resources := 0 },
    resources := 0, units := [], officers := [] }

/-- C9 counterexample: `addResources` has no lower clamp, so a negative
amount produces a domain with negative resources, refuting the claim
that neither function ever does. -/
theorem addResources_negative_cex :
    (addResources dZero (-1)).resources < 0 := by decide

/-- C9 (amended): for every domain and amount, `removeResources` yields
exactly `max 0 (resources − amount)` and never a negative value;
`addResources` preserves non-negativity provided the amount and the
starting resources are non-negative. -/
theorem resources_clamp (d : Domain) (a : Int) :
    (removeResources d a).resources = max 0 (d.resources - a)
    ∧ 0 ≤ (removeResources d a).resources
    ∧ (0 ≤ a → 0 ≤ d.resources → 0 ≤ (addResources d a).resources) := by
  refine ⟨rfl, le_max_left _ _, fun ha hd => ?_⟩
  simp only [addResources]
  omega

theorem resources_clamp_witness :
    (removeResources dZero 5).resources = max 0 (dZero.resources - 5)
    ∧ 0 ≤ (addResources dZero 5).resources :=
  ⟨(resources_clamp dZero 5).1,
   (resources_clamp dZero 5).2.2 (by decide) (by decide)⟩

/-! ## C3: casualty monotonicity and broken marking -/

/-- A concrete unit already carrying the "broken" condition while its
casualty die is positive (constructible through `addCondition`). -/
def uBrokenCex : KUnit :=
  { id := "u", name := "u", type := "infantry", tier := 1,
    stats := { attack := 0, power := 0, defense := 10, toughness := 10,
               morale := 10, command := 0, attacks := 1, damage := 1 },
    casualtyDie := { current := 3, max := 3 },
    traits := [], conditions := ["broken"], experience := 0, battles := 0 }

/-- C3 counterexample: on a unit already marked "broken" with a positive
casualty die, `takeCasualties(u, 0)` leaves current = 3 ≠ 0 while
"broken" stays a member, refuting the unconditional iff. -/
theorem takeCasualties_broken_iff_cex :
    "broken" ∈ (takeCasualties uBrokenCex 0).conditions
    ∧ (takeCasualties uBrokenCex 0).casualtyDie.current ≠ 0 := by decide

/-- C3 (amended): for every unit and n ≥ 0 the resulting current is
`max 0 (current − n)`; and for units whose "broken" marking is sound
(broken ∈ conditions → current = 0), "broken" is a member of the result
iff the resulting current is 0. -/
theorem takeCasualties_spec (u : KUnit) (n : Int) (hn : 0 ≤ n) :
    (takeCasualties u n).casualtyDie.current = max 0 (u.casualtyDie.current - n)
    ∧ (("broken" ∈ u.conditions → u.casualtyDie.current = 0) →
        ("broken" ∈ (takeCasualties u n).conditions
          ↔ (takeCasualties u n).casualtyDie.current = 0)) := by
  constructor
  · simp only [takeCasualties]
    split <;> rfl
  · intro hmark
    by_cases hb : "broken" ∈ u.conditions
    · have hcur : u.casualtyDie.current = 0 := hmark hb
      have hz : max 0 (u.casualtyDie.current - n) = 0 := by
        rw [hcur]; omega
      have hcontains : u.conditions.contains "broken" = true := by
        simpa [List.contains] using List.elem_iff.mpr hb
      simp [takeCasualties, hz, hcontains, hb]
    · have hcontains : u.conditions.contains "broken" = false := by
        rcases h : u.conditions.contains "broken" with _ | _
        · rfl
        · exact absurd (by simpa [List.contains] using List.elem_iff.mp h) hb
      by_cases hz : max 0 (u.casualtyDie.current - n) = 0
      · simp [takeCasualties, hz, hcontains, hb]
      · simp [takeCasualties, hz, hcontains, hb]

theorem takeCasualties_spec_witness :
    (takeCasualties uBrokenCex 5).casualtyDie.current
      = max 0 (uBrokenCex.casualtyDie.current - 5) :=
  (takeCasualties_spec uBrokenCex 5 (by decide)).1

/-! ## C4: rally/casualty inverse bound -/

/-- A concrete unit with current 1 and max 3. -/
def uRallyCex : KUnit :=
  { id := "u", name := "u", type := "infantry", tier := 1,
    stats := { attack := 0, power := 0, defense := 10, toughness := 10,
               morale := 10, command := 0, attacks := 1, damage := 1 },
    casualtyDie := { current := 1, max := 3 },
    traits := [], conditions := [], experience := 0, battles := 0 }

/-- C4 counterexample: with current = 1, max = 3 and n = 5 (all claim
hypotheses hold), takeCasualties floors at 0, so rallying n back
overshoots to 3 ≠ min 1 3 = 1. -/
theorem rally_take_cex :
    0 ≤ uRallyCex.casualtyDie.current
    ∧ uRallyCex.casualtyDie.current ≤ uRallyCex.casualtyDie.max
    ∧ (rallyCasualties (takeCasualties uRallyCex 5) 5).casualtyDie.current
        ≠ min uRallyCex.casualtyDie.current uRallyCex.casualtyDie.max := by
  decide

/-- C4 (amended): the identity holds when in addition n does not exceed
the unit's current casualty die (so the floor at 0 is not hit). -/
theorem rally_take_casualties_spec (u : KUnit) (n : Int) (hn : 0 ≤ n)
    (h0 : 0 ≤ u.casualtyDie.current)
    (hm : u.casualtyDie.current ≤ u.casualtyDie.max)
    (hle : n ≤ u.casualtyDie.current) :
    (rallyCasualties (takeCasualties u n) n).casualtyDie.current
      = min u.casualtyDie.current u.casualtyDie.max := by
  have ht : (takeCasualties u n).casualtyDie.current = u.casualtyDie.current - n := by
    simp only [takeCasualties]
    split <;> simp <;> omega
  have htmax : (takeCasualties u n).casualtyDie.max = u.casualtyDie.max := by
    simp only [takeCasualties]
    split <;> rfl
  simp only [rallyCasualties, ht, htmax]
  split <;> simp <;> omega

theorem rally_take_casualties_spec_witness :
    (rallyCasualties (takeCasualties uRallyCex 1) 1).casualtyDie.current
      = min uRallyCex.casualtyDie.current uRallyCex.casualtyDie.max :=
  rally_take_casualties_spec uRallyCex 1 (by decide) (by decide) (by decide) (by decide)

/-! ## C10: endTurn on an empty initiative -/

/-- C10: `endTurn`'s only guard is the phase check, so in phase "battle"
with an empty initiative it computes `(currentTurn + 1) % 0`, i.e. NaN,
and does change the battle rather than returning it unchanged. -/
theorem endTurn_empty_initiative (b : Battle) (hph : b.phase = "battle")
    (hinit : b.initiative = []) :
    (b.endTurn).currentTurn = JSNum.nan
    ∧ (∀ k, b.currentTurn = JSNum.num k → b.endTurn ≠ b) := by
  have hmod : jsModSucc b.currentTurn b.initiative.length = JSNum.nan := by
    rw [hinit]
    cases b.currentTurn <;> simp [jsModSucc]
  have hidx : jsIdx b.initiative b.currentTurn = none := by
    rw [hinit]
    cases b.currentTurn <;> simp [jsIdx]
  have hct : (b.endTurn).currentTurn = JSNum.nan := by
    simp only [Battle.endTurn, hph, hmod, hidx]
    simp
  refine ⟨hct, fun k hk heq => ?_⟩
  rw [heq] at hct
  rw [hk] at hct
  exact JSNum.noConfusion hct

/-- A concrete battle in phase "battle" with an empty initiative. -/
def bEmptyInit : Battle :=
  { id := "b", name := "b", phase := "battle", round := 1, domains := [],
    units := [], grid := {}, initiative := [], currentTurn := JSNum.num 0,
    log := [] }

theorem endTurn_empty_initiative_witness :
    (bEmptyInit.endTurn).currentTurn = JSNum.nan
    ∧ bEmptyInit.endTurn ≠ bEmptyInit :=
  ⟨(endTurn_empty_initiative bEmptyInit rfl rfl).1,
   (endTurn_empty_initiative bEmptyInit rfl rfl).2 0 rfl⟩

/-! ## Association-list helper lemmas for `battle.units` -/

theorem findUnit_set_activated (us : List (String × BUnit)) (u x : String)
    (bv : Bool) :
    findUnit (us.map
        (fun p => if p.1 = u then (p.1, { p.2 with activated := bv }) else p)) x
      = if x = u then
          (findUnit us x).map (fun w => { w with activated := bv })
        else findUnit us x := by
  induction us with
  | nil => by_cases hx : x = u <;> simp [findUnit, hx]
  | cons hd t ih =>
    obtain ⟨k, v⟩ := hd
    simp only [List.map_cons]
    split
    case isTrue hk =>
      subst hk
      by_cases hx : k = x
      · subst hx
        simp [findUnit]
      · simp [findUnit, hx, Ne.symm hx, ih]
    case isFalse hk =>
      by_cases hx : k = x
      · subst hx
        simp [findUnit, hk]
      · simp [findUnit, hx, ih]

theorem findUnit_set_position (us : List (String × BUnit)) (u x : String)
    (pos : BPos) :
    findUnit (us.map
        (fun p => if p.1 = u then (p.1, { p.2 with position := pos }) else p)) x
      = if x = u then
          (findUnit us x).map (fun w => { w with position := pos })
        else findUnit us x := by
  induction us with
  | nil => by_cases hx : x = u <;> simp [findUnit, hx]
  | cons hd t ih =>
    obtain ⟨k, v⟩ := hd
    simp only [List.map_cons]
    split
    case isTrue hk =>
      subst hk
      by_cases hx : k = x
      · subst hx
        simp [findUnit]
      · simp [findUnit, hx, Ne.symm hx, ih]
    case isFalse hk =>
      by_cases hx : k = x
      · subst hx
        simp [findUnit, hk]
      · simp [findUnit, hx, ih]

theorem findUnit_append (us vs : List (String × BUnit)) (x : String) :
    findUnit (us ++ vs) x
      = match findUnit us x with
        | some v => some v
        | none => findUnit vs x := by
  induction us with
  | nil => simp [findUnit]
  | cons hd t ih =>
    obtain ⟨k, v⟩ := hd
    by_cases hx : k = x <;> simp [findUnit, hx, ih]

theorem findUnit_mem (us : List (String × BUnit)) (x : String) (v : BUnit)
    (h : findUnit us x = some v) : (x, v) ∈ us := by
  induction us with
  | nil => simp [findUnit] at h
  | cons hd t ih =>
    obtain ⟨k, w⟩ := hd
    by_cases hx : k = x
    · subst hx
      simp [findUnit] at h
      simp [h]
    · simp [findUnit, hx] at h
      simp [ih h]

theorem findUnit_isSome_of_mem (us : List (String × BUnit)) (x : String)
    (v : BUnit) (h : (x, v) ∈ us) : (findUnit us x).isSome := by
  induction us with
  | nil => simp at h
  | cons hd t ih =>
    obtain ⟨k, w⟩ := hd
    by_cases hx : k = x
    · simp [findUnit, hx]
    · rcases List.mem_cons.mp h with h1 | h1
      · exact absurd (congrArg Prod.fst h1).symm hx
      · simpa [findUnit, hx] using ih h1

theorem findUnit_filter_ne (us : List (String × BUnit)) (u x : String) :
    findUnit (us.filter (fun p => p.1 != u)) x
      = if x = u then none else findUnit us x := by
  induction us with
  | nil => by_cases hx : x = u <;> simp [findUnit, hx]
  | cons hd t ih =>
    obtain ⟨k, v⟩ := hd
    by_cases hk : k = u <;> by_cases hx : k = x <;>
      simp_all [findUnit]

/-! ## C7: activateUnit silent-rejection policy -/

/-- C7: `activateUnit` returns the battle exactly unchanged whenever the
phase is not "battle", the unit is absent, or it is not that unit's
initiative turn; when all three preconditions hold it appends a
`unit_activated` log entry and sets the unit's activated flag. -/
theorem activateUnit_spec (b : Battle) (u : String) :
    ((b.phase ≠ "battle" ∨ findUnit b.units u = none
        ∨ jsIdx b.initiative b.currentTurn ≠ some u) →
      b.activateUnit u = b)
    ∧ (b.phase = "battle" → (findUnit b.units u).isSome →
        jsIdx b.initiative b.currentTurn = some u →
        (b.activateUnit u).log = b.log ++ [LogEntry.unit_activated u]
        ∧ (findUnit (b.activateUnit u).units u).map (fun v => v.activated)
            = some true) := by
  constructor
  · intro h
    rcases h with h | h | h
    · simp [Battle.activateUnit, h]
    · simp [Battle.activateUnit, h]
    · simp only [Battle.activateUnit]
      split
      · rfl
      · cases hf : findUnit b.units u
        · rfl
        · simp [hf, h]
  · intro hph hsome hturn
    obtain ⟨un, hun⟩ := Option.isSome_iff_exists.mp hsome
    have hres : b.activateUnit u
        = { b with
            units := b.units.map
              (fun p =>
                if p.1 = u then (p.1, { p.2 with activated := true }) else p),
            log := b.log ++ [LogEntry.unit_activated u] } := by
      simp [Battle.activateUnit, hph, hun, hturn]
    rw [hres]
    refine ⟨rfl, ?_⟩
    rw [findUnit_set_activated]
    simp [hun]

/-- A concrete battle where it is unit "U"'s turn. -/
def bAct : Battle :=
  { id := "b", name := "b", phase := "battle", round := 1, domains := ["A"],
    units := [("U",
      { id := "U", domainId := "A",
        position := { rank := "not_deployed", column := none },
        activated := false, usedReaction := false, tokens := [] })],
    grid := { not_deployed := ["U"] }, initiative := ["U"],
    currentTurn := JSNum.num 0, log := [] }

theorem activateUnit_spec_witness :
    (bAct.activateUnit "V" = bAct)
    ∧ ((bAct.activateUnit "U").log = bAct.log ++ [LogEntry.unit_activated "U"]
        ∧ (findUnit (bAct.activateUnit "U").units "U").map (fun v => v.activated)
            = some true) :=
  ⟨(activateUnit_spec bAct "V").1 (Or.inr (Or.inl (by decide))),
   (activateUnit_spec bAct "U").2 rfl (by decide) (by decide)⟩

/-! ## C6: asymmetric addUnit short-circuit -/

/-- C6: `addUnit` is a no-op when the unit is already present; when the
unit is absent but the domain is not a member it appends the domain and
does not add the unit; only when the domain is already a member does it
insert the unit (position not_deployed/null) and append it to the
not_deployed list. -/
theorem addUnit_shortcircuit (b : Battle) (u d : String) :
    ((findUnit b.units u).isSome → b.addUnit u d = b)
    ∧ (findUnit b.units u = none → b.domains.contains d = false →
        (b.addUnit u d).domains = b.domains ++ [d]
        ∧ (b.addUnit u d).units = b.units
        ∧ (b.addUnit u d).grid = b.grid)
    ∧ (findUnit b.units u = none → b.domains.contains d = true →
        (b.addUnit u d).units
          = b.units ++ [(u,
              { id := u, domainId := d,
                position := { rank := "not_deployed", column := none },
                activated := false, usedReaction := false, tokens := [] })]
        ∧ (b.addUnit u d).grid.not_deployed = b.grid.not_deployed ++ [u]
        ∧ (b.addUnit u d).domains = b.domains) := by
  refine ⟨?_, ?_, ?_⟩
  · intro h
    obtain ⟨un, hun⟩ := Option.isSome_iff_exists.mp h
    simp [Battle.addUnit, hun]
  · intro hf hd
    have hd2 : d ∉ b.domains := by simpa using hd
    simp [Battle.addUnit, hf, Battle.addDomain, hd2]
  · intro hf hd
    have hd2 : d ∈ b.domains := by simpa using hd
    simp [Battle.addUnit, hf, hd2]

/-- A concrete battle with one domain "A" and one unit "U". -/
def bAdd : Battle :=
  { id := "b", name := "b", phase := "setup", round := 0, domains := ["A"],
    units := [("U",
      { id := "U", domainId := "A",
        position := { rank := "not_deployed", column := none },
        activated := false, usedReaction := false, tokens := [] })],
    grid := { not_deployed := ["U"] }, initiative := [],
    currentTurn := JSNum.num 0, log := [] }

theorem addUnit_shortcircuit_witness :
    (bAdd.addUnit "U" "B" = bAdd)
    ∧ ((bAdd.addUnit "V" "B").domains = bAdd.domains ++ ["B"]
        ∧ (bAdd.addUnit "V" "B").units = bAdd.units)
    ∧ (bAdd.addUnit "V" "A").grid.not_deployed
        = bAdd.grid.not_deployed ++ ["V"] :=
  ⟨(addUnit_shortcircuit bAdd "U" "B").1 (by decide),
   ⟨((addUnit_shortcircuit bAdd "V" "B").2.1 (by decide) (by decide)).1,
    ((addUnit_shortcircuit bAdd "V" "B").2.1 (by decide) (by decide)).2.1⟩,
   ((addUnit_shortcircuit bAdd "V" "A").2.2 (by decide) (by decide)).2.1⟩

/-! ## C5: startIntrigue guard and deterministic turn order -/

/-- C5: `startIntrigue` is a no-op unless phase = setup, the initiator
is set and there are at least two domains; when the preconditions hold
and the turn order is empty, the session becomes active with turn order
initiator first, then the remaining domains in insertion order. -/
theorem startIntrigue_spec (i : Intrigue) :
    ((i.phase ≠ "setup" ∨ i.initiator = none ∨ i.domains.length < 2) →
      i.startIntrigue = i)
    ∧ (∀ d, i.phase = "setup" → i.initiator = some d → d ≠ "" →
        2 ≤ i.domains.length → i.turnOrder = [] →
        i.startIntrigue.phase = "active"
        ∧ i.startIntrigue.turnOrder = d :: i.domains.filter (fun x => x != d)) := by
  constructor
  · intro h
    rcases h with h | h | h
    · simp [Intrigue.startIntrigue, h]
    · simp [Intrigue.startIntrigue, h]
    · simp only [Intrigue.startIntrigue]
      split
      · rfl
      · cases hini : i.initiator with
        | none => rfl
        | some d =>
          by_cases hd : d = ""
          · simp [hd]
          · simp [hd, h]
  · intro d hph hini hd hlen hord
    have h2 : ¬ i.domains.length < 2 := by omega
    simp [Intrigue.startIntrigue, hph, hini, hd, h2, hord]

/-- The claim's example session: initiator D1, domains added in the
order D2, D1, D3. -/
def iEx : Intrigue :=
  ((((createIntrigue "i" "n").addDomain "D2").addDomain "D1").addDomain
      "D3").setInitiator "D1"

theorem startIntrigue_spec_witness :
    (iEx.startIntrigue.phase = "active"
      ∧ iEx.startIntrigue.turnOrder
          = "D1" :: iEx.domains.filter (fun x => x != "D1"))
    ∧ iEx.startIntrigue.turnOrder = ["D1", "D2", "D3"] :=
  ⟨(startIntrigue_spec iEx).2 "D1" (by decide) (by decide) (by decide)
      (by decide) (by decide),
   by decide⟩

/-! ## C2: turn wraparound -/

theorem endTurn_nowrap (b : Battle) (k : Nat) (hph : b.phase = "battle")
    (hct : b.currentTurn = JSNum.num k) (hlt : k + 1 < b.initiative.length) :
    (b.endTurn).phase = "battle"
    ∧ (b.endTurn).initiative = b.initiative
    ∧ (b.endTurn).currentTurn = JSNum.num (k + 1)
    ∧ (b.endTurn).round = b.round
    ∧ (b.endTurn).log = b.log := by
  have hlen : b.initiative.length ≠ 0 := by omega
  have hmod : jsModSucc b.currentTurn b.initiative.length = JSNum.num (k + 1) := by
    rw [hct]
    simp [jsModSucc, hlen, Nat.mod_eq_of_lt hlt]
  refine ⟨?_, ?_, ?_, ?_, ?_⟩ <;> simp [Battle.endTurn, hph, hmod]

theorem endTurn_wrap (b : Battle) (k : Nat) (hph : b.phase = "battle")
    (hct : b.currentTurn = JSNum.num k) (hlen : b.initiative.length = k + 1) :
    (b.endTurn).currentTurn = JSNum.num 0
    ∧ (b.endTurn).round = b.round + 1
    ∧ (b.endTurn).log
        = b.log ++ [LogEntry.round_end b.round, LogEntry.round_start (b.round + 1)]
    ∧ ∀ p ∈ (b.endTurn).units, p.2.usedReaction = false := by
  have hmod : jsModSucc b.currentTurn b.initiative.length = JSNum.num 0 := by
    rw [hct, hlen]
    simp [jsModSucc]
  refine ⟨?_, ?_, ?_, ?_⟩ <;> simp [Battle.endTurn, hph, hmod]
  intro a b1 x x1 h1 h2 h3
  rw [← h3]

/-- C2: in phase "battle" with initiative length L ≥ 1 and currentTurn 0,
L calls to `endTurn` bring currentTurn back to 0, increment the round by
exactly one, reset every unit's usedReaction flag, and append (on the
wrapping call only) a round_end entry followed by a round_start entry. -/
theorem turn_wraparound (b : Battle) (L : Nat) (hph : b.phase = "battle")
    (hL : b.initiative.length = L) (hL1 : 1 ≤ L)
    (hct : b.currentTurn = JSNum.num 0) :
    (Battle.endTurn^[L] b).currentTurn = JSNum.num 0
    ∧ (Battle.endTurn^[L] b).round = b.round + 1
    ∧ (∀ p ∈ (Battle.endTurn^[L] b).units, p.2.usedReaction = false)
    ∧ (Battle.endTurn^[L] b).log
        = b.log ++ [LogEntry.round_end b.round, LogEntry.round_start (b.round + 1)] := by
  have aux : ∀ j, j < L →
      (Battle.endTurn^[j] b).phase = "battle"
      ∧ (Battle.endTurn^[j] b).initiative = b.initiative
      ∧ (Battle.endTurn^[j] b).currentTurn = JSNum.num j
      ∧ (Battle.endTurn^[j] b).round = b.round
      ∧ (Battle.endTurn^[j] b).log = b.log := by
    intro j
    induction j with
    | zero =>
      intro _
      simp only [Function.iterate_zero, id_eq]
      exact ⟨hph, by trivial, hct, by trivial, by trivial⟩
    | succ n ih =>
      intro hlt
      obtain ⟨h1, h2, h3, h4, h5⟩ := ih (by omega)
      have hstep := endTurn_nowrap (Battle.endTurn^[n] b) n h1 h3
        (by rw [h2, hL]; omega)
      rw [Function.iterate_succ_apply']
      exact ⟨hstep.1, by rw [hstep.2.1, h2], hstep.2.2.1,
        by rw [hstep.2.2.2.1, h4], by rw [hstep.2.2.2.2, h5]⟩
  obtain ⟨h1, h2, h3, h4, h5⟩ := aux (L - 1) (by omega)
  have hwrap := endTurn_wrap (Battle.endTurn^[L - 1] b) (L - 1) h1 h3
    (by rw [h2, hL]; omega)
  have hiter : Battle.endTurn^[L] b = Battle.endTurn (Battle.endTurn^[L - 1] b) := by
    have hsplit : L = (L - 1) + 1 := by omega
    conv_lhs => rw [hsplit]
    rw [Function.iterate_succ_apply']
  rw [hiter]
  exact ⟨hwrap.1, by rw [hwrap.2.1, h4], hwrap.2.2.2,
    by rw [hwrap.2.2.1, h5, h4]⟩

/-- A concrete two-unit battle at the top of its initiative. -/
def bTurn : Battle :=
  { id := "b", name := "b", phase := "battle", round := 1, domains := ["A"],
    units := [("u1",
      { id := "u1", domainId := "A",
        position := { rank := "not_deployed", column := none },
        activated := false, usedReaction := true, tokens := [] }),
      ("u2",
      { id := "u2", domainId := "A",
        position := { rank := "not_deployed", column := none },
        activated := false, usedReaction := true, tokens := [] })],
    grid := { not_deployed := ["u1", "u2"] }, initiative := ["u1", "u2"],
    currentTurn := JSNum.num 0, log := [] }

theorem turn_wraparound_witness :
    (Battle.endTurn^[2] bTurn).currentTurn = JSNum.num 0
    ∧ (Battle.endTurn^[2] bTurn).round = bTurn.round + 1
    ∧ (∀ p ∈ (Battle.endTurn^[2] bTurn).units, p.2.usedReaction = false)
    ∧ (Battle.endTurn^[2] bTurn).log
        = bTurn.log ++
            [LogEntry.round_end bTurn.round, LogEntry.round_start (bTurn.round + 1)] :=
  turn_wraparound bTurn 2 rfl rfl (by omega) rfl

/-! ## C8: dice notation evaluation and failure -/

theorem mem_takeWhile_p (p : Char → Bool) (l : List Char) :
    ∀ c ∈ l.takeWhile p, p c = true := by
  induction l with
  | nil => intro c hc; simp [List.takeWhile] at hc
  | cons a t ih =>
    intro c hc
    by_cases ha : p a = true
    · rw [List.takeWhile_cons_of_pos ha] at hc
      rcases List.mem_cons.mp hc with h | h
      · subst h; exact ha
      · exact ih c h
    · rw [List.takeWhile_cons_of_neg (by simpa using ha)] at hc
      simp at hc

theorem dropWhile_all_append (p : Char → Bool) (a : List Char) (x : Char)
    (t : List Char) (ha : ∀ c ∈ a, p c = true) (hx : p x = false) :
    (a ++ x :: t).dropWhile p = x :: t := by
  induction a with
  | nil => simp [List.dropWhile_cons, hx]
  | cons c a2 ih =>
    have hc : p c = true := ha c (by simp)
    simp only [List.cons_append, List.dropWhile_cons, hc, if_true]
    exact ih (fun d hd => ha d (by simp [hd]))

theorem matchAt_isSome_of (cnt : List Char) (dch x : Char) (t : List Char)
    (ha : ∀ c ∈ cnt, isDigitCh c = true) (hd : dch = 'd' ∨ dch = 'D')
    (hx : isDigitCh x = true) :
    (matchAt (cnt ++ dch :: x :: t)).isSome := by
  have hdch : isDigitCh dch = false := by
    rcases hd with h | h <;> subst h <;> decide
  simp only [matchAt, dropWhile_all_append isDigitCh cnt dch (x :: t) ha hdch]
  rw [if_pos hd]
  rw [List.takeWhile_cons_of_pos hx]
  rw [if_neg (by simp)]
  cases hdw : (x :: t).dropWhile isDigitCh with
  | nil => simp
  | cons s r4 => split <;> (try split) <;> (try split) <;> simp

theorem findMatch_isSome_append (pre rest : List Char)
    (h : (matchAt rest).isSome) : (findMatch (pre ++ rest)).isSome := by
  induction pre with
  | nil =>
    cases rest with
    | nil => simpa [findMatch] using h
    | cons c t =>
      obtain ⟨m, hm⟩ := Option.isSome_iff_exists.mp h
      simp [findMatch, hm]
  | cons p pt ih =>
    simp only [List.cons_append, findMatch]
    cases hm : matchAt (p :: (pt ++ rest)) with
    | some m => simp
    | none => simpa using ih

theorem matchAt_sound (cs : List Char)
    (m : List Char × List Char × Option (Char × List Char))
    (h : matchAt cs = some m) :
    ∃ w post, cs = w ++ post ∧ IsNotationWord w := by
  rcases hdw : cs.dropWhile isDigitCh with _ | ⟨c, rest2⟩
  · simp [matchAt, hdw] at h
  · by_cases hc : c = 'd' ∨ c = 'D'
    · by_cases hsd : rest2.takeWhile isDigitCh = []
      · simp [matchAt, hdw, hc, hsd] at h
      · refine ⟨cs.takeWhile isDigitCh ++ c :: rest2.takeWhile isDigitCh,
          rest2.dropWhile isDigitCh, ?_, ?_⟩
        · have hsplit : cs.takeWhile isDigitCh ++ cs.dropWhile isDigitCh = cs :=
            List.takeWhile_append_dropWhile isDigitCh cs
          have hsplit2 :
              rest2.takeWhile isDigitCh ++ rest2.dropWhile isDigitCh = rest2 :=
            List.takeWhile_append_dropWhile isDigitCh rest2
          conv_lhs => rw [← hsplit, hdw, ← hsplit2]
          simp
        · refine ⟨cs.takeWhile isDigitCh, c, rest2.takeWhile isDigitCh, [],
            by simp, mem_takeWhile_p isDigitCh cs, hc, hsd,
            mem_takeWhile_p isDigitCh rest2, Or.inl rfl⟩
    · simp [matchAt, hdw, hc] at h

theorem findMatch_sound (cs : List Char)
    (m : List Char × List Char × Option (Char × List Char))
    (h : findMatch cs = some m) :
    ∃ pre w post, cs = pre ++ (w ++ post) ∧ IsNotationWord w := by
  induction cs with
  | nil => simp [findMatch, matchAt] at h
  | cons c t ih =>
    rw [findMatch] at h
    cases hm : matchAt (c :: t) with
    | some m2 =>
      obtain ⟨w, post, hw, hword⟩ := matchAt_sound (c :: t) m2 hm
      exact ⟨[], w, post, by simpa using hw, hword⟩
    | none =>
      rw [hm] at h
      obtain ⟨pre, w, post, hw, hword⟩ := ih h
      exact ⟨c :: pre, w, post, by simp [hw], hword⟩

theorem findMatch_isSome_of_matches (s : String) (h : MatchesNotation s) :
    (findMatch s.data).isSome := by
  obtain ⟨pre, w, post, hs, hword⟩ := h
  obtain ⟨cnt, dch, sd, md, hw, hcnt, hdch, hsd, hsddig, hmd⟩ := hword
  rcases sd with _ | ⟨x, sd2⟩
  · exact absurd rfl hsd
  · have hx : isDigitCh x = true := hsddig x (by simp)
    have hm : (matchAt (cnt ++ dch :: x :: (sd2 ++ (md ++ post)))).isSome :=
      matchAt_isSome_of cnt dch x (sd2 ++ (md ++ post)) hcnt hdch hx
    have harr : w ++ post = cnt ++ dch :: x :: (sd2 ++ (md ++ post)) := by
      rw [hw]
      simp [List.append_assoc]
    rw [hs, harr]
    exact findMatch_isSome_append pre (cnt ++ dch :: x :: (sd2 ++ (md ++ post))) hm

/-- C8: "2d6+3" rolls exactly two dice in [1,6] and adds 3; "1d20-2"
rolls one die in [1,20] and subtracts 2; the invalid-notation error is
thrown exactly when the notation grammar matches nowhere in the string
(the regex search is unanchored), and in particular "bogus" throws. -/
theorem rollFromNotation_spec (g : Nat → Nat → Nat)
    (hg : ∀ i s, 1 ≤ g i s ∧ g i s ≤ max 1 s) :
    (∃ r, rollFromNotation g "2d6+3" = Except.ok r
      ∧ r.rolls.length = 2
      ∧ (∀ x ∈ r.rolls, 1 ≤ x ∧ x ≤ 6)
      ∧ r.result = (natSum r.rolls : Int) + 3)
    ∧ (∃ r, rollFromNotation g "1d20-2" = Except.ok r
      ∧ r.rolls.length = 1
      ∧ (∀ x ∈ r.rolls, 1 ≤ x ∧ x ≤ 20)
      ∧ r.result = (natSum r.rolls : Int) - 2)
    ∧ (∀ s, (∃ e, rollFromNotation g s = Except.error e) ↔ ¬ MatchesNotation s)
    ∧ (∃ e, rollFromNotation g "bogus" = Except.error e) := by
  refine ⟨?_, ?_, ?_, ?_⟩
  · refine ⟨⟨"2d6+3", [g 0 6, g 1 6], some ('+', 3),
        (natSum [g 0 6, g 1 6] : Int) + 3⟩, rfl, by simp, ?_, rfl⟩
    intro x hx
    rcases List.mem_cons.mp hx with h | h
    · subst h
      exact ⟨(hg 0 6).1, (by decide : max 1 6 = 6) ▸ (hg 0 6).2⟩
    · rcases List.mem_cons.mp h with h2 | h2
      · subst h2
        exact ⟨(hg 1 6).1, (by decide : max 1 6 = 6) ▸ (hg 1 6).2⟩
      · simp at h2
  · refine ⟨⟨"1d20-2", [g 0 20], some ('-', 2),
        (natSum [g 0 20] : Int) - 2⟩, rfl, by simp, ?_, rfl⟩
    intro x hx
    rcases List.mem_cons.mp hx with h | h
    · subst h
      exact ⟨(hg 0 20).1, (by decide : max 1 20 = 20) ▸ (hg 0 20).2⟩
    · simp at h
  · intro s
    constructor
    · rintro ⟨e, he⟩ hmatch
      obtain ⟨m, hm⟩ :=
        Option.isSome_iff_exists.mp (findMatch_isSome_of_matches s hmatch)
      simp [rollFromNotation, hm] at he
    · intro hnot
      cases hfm : findMatch s.data with
      | none => exact ⟨"Invalid dice notation: " ++ s, by simp [rollFromNotation, hfm]⟩
      | some m =>
        obtain ⟨pre, w, post, hsdata, hword⟩ := findMatch_sound s.data m hfm
        exact absurd ⟨pre, w, post, hsdata, hword⟩ hnot
  · exact ⟨"Invalid dice notation: " ++ "bogus", rfl⟩

theorem rollFromNotation_spec_witness :
    ∃ r, rollFromNotation (fun _ s => max 1 s) "2d6+3" = Except.ok r
      ∧ r.rolls.length = 2
      ∧ (∀ x ∈ r.rolls, 1 ≤ x ∧ x ≤ 6)
      ∧ r.result = (natSum r.rolls : Int) + 3 :=
  (rollFromNotation_spec (fun _ s => max 1 s)
    (fun i s => ⟨Nat.le_max_left 1 s, Nat.le_refl (max 1 s)⟩)).1

/-! ## C1: grid exclusivity invariant -/

/-- The five battle operations quantified over by the claim. -/
inductive BOp where
  | addDomain (d : String)
  | removeDomain (d : String)
  | addUnit (u d : String)
  | removeUnit (u : String)
  | deploy (u r c : String)
deriving DecidableEq, Repr

/-- One operation applied to a stored battle; an operation that throws
leaves the stored battle unchanged (the caller saves only on success). -/
def applyBOp (b : Battle) : BOp → Battle
  | BOp.addDomain d => b.addDomain d
  | BOp.removeDomain d => (b.removeDomain d).getD b
  | BOp.addUnit u d => b.addUnit u d
  | BOp.removeUnit u => (b.removeUnit u).getD b
  | BOp.deploy u r c => (b.deployUnit u r c).getD b

/-- A sequence of operations applied in order. -/
def runOps (b : Battle) (ops : List BOp) : Battle := ops.foldl applyBOp b

/-- How many structured grid cells hold unit `u`. -/
def cellOccCount (g : Grid) (u : String) : Nat :=
  [g.vanguard.left, g.vanguard.center, g.vanguard.right,
   g.center.left, g.center.center, g.center.right,
   g.rear.left, g.rear.center, g.rear.right].count (some u)

/-- The claim-level predicate: the unit id occupies exactly one grid
location, the one its position field records — either exactly one
occurrence in exactly one of the not_deployed/reserve lists, or a single
structured cell. -/
def occupiesExactlyOne (b : Battle) (u : String) (un : BUnit) : Prop :=
  (un.position.rank = "not_deployed" ∧ b.grid.not_deployed.count u = 1
    ∧ b.grid.reserve.count u = 0 ∧ cellOccCount b.grid u = 0)
  ∨ (un.position.rank = "reserve" ∧ b.grid.reserve.count u = 1
    ∧ b.grid.not_deployed.count u = 0 ∧ cellOccCount b.grid u = 0)
  ∨ (∃ c, un.position.column = some c
    ∧ (b.grid.row? un.position.rank).bind (fun row => row.get c) = some (some u)
    ∧ cellOccCount b.grid u = 1
    ∧ b.grid.not_deployed.count u = 0 ∧ b.grid.reserve.count u = 0)

/-- The reachability invariant, stronger than the claim: every
structured cell is empty (the occupancy check can never pass, because
`GRID_POSITIONS` is keyed by the uppercase names and the grid rows by
the lowercase ones), every unit sits in the single unstructured list its
recorded rank names, exactly once, and the lists mention only unit
keys. -/
def BattleInv (b : Battle) : Prop :=
  (b.grid.vanguard = {} ∧ b.grid.center = {} ∧ b.grid.rear = {})
  ∧ (∀ p ∈ b.units,
      (p.2.position.rank = "not_deployed" ∧ b.grid.not_deployed.count p.1 = 1
        ∧ b.grid.reserve.count p.1 = 0)
      ∨ (p.2.position.rank = "reserve" ∧ b.grid.reserve.count p.1 = 1
        ∧ b.grid.not_deployed.count p.1 = 0))
  ∧ (∀ x ∈ b.grid.not_deployed, (findUnit b.units x).isSome)
  ∧ (∀ x ∈ b.grid.reserve, (findUnit b.units x).isSome)

theorem count_filter_self (l : List String) (u : String) :
    (l.filter (fun x => x != u)).count u = 0 := by
  rw [List.count_eq_zero]
  intro hmem
  have h2 := (List.mem_filter.mp hmem).2
  simp at h2

theorem count_filter_ne (l : List String) (u x : String) (h : x ≠ u) :
    (l.filter (fun y => y != u)).count x = l.count x := by
  induction l with
  | nil => rfl
  | cons a t ih =>
    by_cases ha : a = u
    · subst ha
      simp [List.filter_cons, List.count_cons, h, ih]
    · simp [List.filter_cons, List.count_cons, ha, ih]

theorem findUnit_append_isSome_left (us vs : List (String × BUnit))
    (x : String) (h : (findUnit us x).isSome) :
    (findUnit (us ++ vs) x).isSome := by
  rw [findUnit_append]
  cases hfx : findUnit us x with
  | none => rw [hfx] at h; simp at h
  | some v => simp

theorem inv_createBattle (id name : String) :
    BattleInv (createBattle id name) := by
  refine ⟨⟨rfl, rfl, rfl⟩, ?_, ?_, ?_⟩
  · intro p hp
    simp [createBattle] at hp
  · intro x hx
    simp [createBattle] at hx
  · intro x hx
    simp [createBattle] at hx

theorem inv_addDomain (b : Battle) (d : String) (h : BattleInv b) :
    BattleInv (b.addDomain d) := by
  unfold Battle.addDomain
  split
  · exact h
  · exact h

theorem inv_addUnit (b : Battle) (u d : String) (h : BattleInv b) :
    BattleInv (b.addUnit u d) := by
  obtain ⟨hcells, hplaced, hnd, hres⟩ := h
  cases hfu : findUnit b.units u with
  | some un =>
    have heq : b.addUnit u d = b := by
      unfold Battle.addUnit
      simp only [hfu]
    rw [heq]
    exact ⟨hcells, hplaced, hnd, hres⟩
  | none =>
    by_cases hd : b.domains.contains d = true
    · have hd2 : d ∈ b.domains := by simpa using hd
      have heq : b.addUnit u d
          = { b with
              units := b.units ++ [(u,
                { id := u, domainId := d,
                  position := { rank := "not_deployed", column := none },
                  activated := false, usedReaction := false, tokens := [] })],
              grid := { b.grid with
                not_deployed := b.grid.not_deployed ++ [u] } } := by
        unfold Battle.addUnit
        simp only [hfu]
        rw [if_neg (by simp [hd2])]
      rw [heq]
      have hunotnd : b.grid.not_deployed.count u = 0 := by
        rw [List.count_eq_zero]
        intro hmem
        have h2 := hnd u hmem
        rw [hfu] at h2
        simp at h2
      have hunotres : b.grid.reserve.count u = 0 := by
        rw [List.count_eq_zero]
        intro hmem
        have h2 := hres u hmem
        rw [hfu] at h2
        simp at h2
      refine ⟨⟨hcells.1, hcells.2.1, hcells.2.2⟩, ?_, ?_, ?_⟩
      · intro p hp
        rcases List.mem_append.mp hp with hp1 | hp1
        · have hkey : (findUnit b.units p.1).isSome :=
            findUnit_isSome_of_mem b.units p.1 p.2 (by rw [Prod.mk.eta]; exact hp1)
          have hne : p.1 ≠ u := by
            intro he
            rw [he, hfu] at hkey
            simp at hkey
          rcases hplaced p hp1 with ⟨h1, h2, h3⟩ | ⟨h1, h2, h3⟩
          · exact Or.inl ⟨h1,
              by simp [List.count_append, List.count_cons, h2, hne], h3⟩
          · exact Or.inr ⟨h1, h2,
              by simp [List.count_append, List.count_cons, h3, hne]⟩
        · simp at hp1
          rw [hp1]
          exact Or.inl ⟨rfl,
            by simp [List.count_append, List.count_cons, hunotnd], hunotres⟩
      · intro x hx
        rcases List.mem_append.mp hx with hx1 | hx1
        · exact findUnit_append_isSome_left b.units _ x (hnd x hx1)
        · simp at hx1
          subst hx1
          rw [findUnit_append, hfu]
          simp [findUnit]
      · intro x hx
        exact findUnit_append_isSome_left b.units _ x (hres x hx)
    · have hd2 : d ∉ b.domains := by simpa using hd
      have heq : b.addUnit u d = b.addDomain d := by
        unfold Battle.addUnit
        simp only [hfu]
        rw [if_pos (by simp [hd2])]
      rw [heq]
      exact inv_addDomain b d ⟨hcells, hplaced, hnd, hres⟩

theorem vacate_nd (g : Grid) (u : String) (col : Option String) :
    vacate g u "not_deployed" col
      = some { g with not_deployed := g.not_deployed.filter (fun x => x != u) } :=
  rfl

theorem vacate_res (g : Grid) (u : String) (col : Option String) :
    vacate g u "reserve" col
      = some { g with reserve := g.reserve.filter (fun x => x != u) } :=
  rfl

theorem inv_removeUnit (b : Battle) (u : String) (b2 : Battle)
    (h : BattleInv b) (hrm : b.removeUnit u = some b2) : BattleInv b2 := by
  obtain ⟨hcells, hplaced, hnd, hres⟩ := h
  unfold Battle.removeUnit at hrm
  cases hfu : findUnit b.units u with
  | none =>
    simp only [hfu] at hrm
    have hb := Option.some.inj hrm
    subst hb
    exact ⟨hcells, hplaced, hnd, hres⟩
  | some un =>
    simp only [hfu] at hrm
    have hmem : (u, un) ∈ b.units := findUnit_mem b.units u un hfu
    rcases hplaced (u, un) hmem with ⟨h1, h2, h3⟩ | ⟨h1, h2, h3⟩
    · rw [h1, vacate_nd] at hrm
      have hb2 := Option.some.inj hrm
      subst hb2
      refine ⟨⟨hcells.1, hcells.2.1, hcells.2.2⟩, ?_, ?_, ?_⟩
      · intro p hp
        have hp2 := List.mem_filter.mp hp
        have hpne : p.1 ≠ u := by simpa using hp2.2
        rcases hplaced p hp2.1 with ⟨k1, k2, k3⟩ | ⟨k1, k2, k3⟩
        · exact Or.inl ⟨k1, by simp [count_filter_ne _ _ _ hpne, k2], k3⟩
        · exact Or.inr ⟨k1, k2, by simp [count_filter_ne _ _ _ hpne, k3]⟩
      · intro x hx
        have hx2 := List.mem_filter.mp hx
        have hxne : x ≠ u := by simpa using hx2.2
        have hh := hnd x hx2.1
        show (findUnit (b.units.filter (fun p => p.1 != u)) x).isSome = true
        rw [findUnit_filter_ne, if_neg hxne]
        exact hh
      · intro x hx
        have hxne : x ≠ u := by
          intro he
          rw [List.count_eq_zero] at h3
          exact h3 (he ▸ hx)
        have hh := hres x hx
        show (findUnit (b.units.filter (fun p => p.1 != u)) x).isSome = true
        rw [findUnit_filter_ne, if_neg hxne]
        exact hh
    · rw [h1, vacate_res] at hrm
      have hb2 := Option.some.inj hrm
      subst hb2
      refine ⟨⟨hcells.1, hcells.2.1, hcells.2.2⟩, ?_, ?_, ?_⟩
      · intro p hp
        have hp2 := List.mem_filter.mp hp
        have hpne : p.1 ≠ u := by simpa using hp2.2
        rcases hplaced p hp2.1 with ⟨k1, k2, k3⟩ | ⟨k1, k2, k3⟩
        · exact Or.inl ⟨k1, k2, by simp [count_filter_ne _ _ _ hpne, k3]⟩
        · exact Or.inr ⟨k1, by simp [count_filter_ne _ _ _ hpne, k2], k3⟩
      · intro x hx
        have hxne : x ≠ u := by
          intro he
          rw [List.count_eq_zero] at h3
          exact h3 (he ▸ hx)
        have hh := hnd x hx
        show (findUnit (b.units.filter (fun p => p.1 != u)) x).isSome = true
        rw [findUnit_filter_ne, if_neg hxne]
        exact hh
      · intro x hx
        have hx2 := List.mem_filter.mp hx
        have hxne : x ≠ u := by simpa using hx2.2
        have hh := hres x hx2.1
        show (findUnit (b.units.filter (fun p => p.1 != u)) x).isSome = true
        rw [findUnit_filter_ne, if_neg hxne]
        exact hh

theorem foldl_removeUnit_none (t : List String) :
    t.foldl (fun acc uid => match acc with
      | none => none
      | some bb => Battle.removeUnit bb uid) none = none := by
  induction t with
  | nil => rfl
  | cons a t2 ih =>
    rw [List.foldl_cons]
    exact ih

theorem inv_fold_removeUnit (ids : List String) :
    ∀ (b b2 : Battle), BattleInv b →
      ids.foldl (fun acc uid => match acc with
        | none => none
        | some bb => Battle.removeUnit bb uid) (some b) = some b2 →
      BattleInv b2 := by
  induction ids with
  | nil =>
    intro b b2 h hfold
    rw [List.foldl_nil] at hfold
    have hb := Option.some.inj hfold
    subst hb
    exact h
  | cons i t ih =>
    intro b b2 h hfold
    rw [List.foldl_cons] at hfold
    cases hrm : b.removeUnit i with
    | none =>
      simp only [hrm] at hfold
      rw [foldl_removeUnit_none] at hfold
      exact Option.noConfusion hfold
    | some b3 =>
      simp only [hrm] at hfold
      exact ih b3 b2 (inv_removeUnit b i b3 h hrm) hfold

theorem inv_removeUnit_getD (b : Battle) (u : String) (h : BattleInv b) :
    BattleInv ((b.removeUnit u).getD b) := by
  cases hrm : b.removeUnit u with
  | none => exact h
  | some b2 => exact inv_removeUnit b u b2 h hrm

theorem inv_removeDomain_getD (b : Battle) (d : String) (h : BattleInv b) :
    BattleInv ((b.removeDomain d).getD b) := by
  cases hrd : b.removeDomain d with
  | none => exact h
  | some b2 =>
    refine inv_fold_removeUnit
      ((b.units.filter (fun p => p.2.domainId == d)).map Prod.fst)
      { b with domains := b.domains.filter (fun x => x != d) } b2 ?_ ?_
    · exact h
    · unfold Battle.removeDomain at hrd
      exact hrd

theorem row_get_of_gpv (row : Row) (c : String)
    (h : gridPositionsVal c ≠ none) : row.get c = none := by
  have hcl : c = "LEFT" ∨ c = "CENTER" ∨ c = "RIGHT" := by
    by_contra hno
    push_neg at hno
    obtain ⟨n1, n2, n3⟩ := hno
    exact h (by simp [gridPositionsVal, n1, n2, n3])
  rcases hcl with h1 | h1 | h1 <;> subst h1 <;> rfl

theorem inv_mk_move (b : Battle) (u : String) (pos : BPos)
    (nd2 res2 : List String) (h : BattleInv b)
    (hfu : (findUnit b.units u).isSome)
    (hpos : (pos.rank = "not_deployed" ∧ nd2.count u = 1 ∧ res2.count u = 0)
      ∨ (pos.rank = "reserve" ∧ res2.count u = 1 ∧ nd2.count u = 0))
    (hold : ∀ x, x ≠ u → nd2.count x = b.grid.not_deployed.count x
      ∧ res2.count x = b.grid.reserve.count x)
    (hmnd : ∀ x ∈ nd2, x = u ∨ x ∈ b.grid.not_deployed)
    (hmres : ∀ x ∈ res2, x = u ∨ x ∈ b.grid.reserve) :
    BattleInv { b with
      units := b.units.map
        (fun p => if p.1 = u then (p.1, { p.2 with position := pos }) else p),
      grid := { b.grid with not_deployed := nd2, reserve := res2 } } := by
  obtain ⟨hcells, hplaced, hnd, hres⟩ := h
  have hiso : ∀ x, (findUnit (b.units.map
      (fun p => if p.1 = u then (p.1, { p.2 with position := pos }) else p))
        x).isSome
      = (findUnit b.units x).isSome := by
    intro x
    rw [findUnit_set_position]
    by_cases hxu : x = u
    · rw [if_pos hxu]
      subst hxu
      cases hfx : findUnit b.units x <;> simp
    · rw [if_neg hxu]
  refine ⟨⟨hcells.1, hcells.2.1, hcells.2.2⟩, ?_, ?_, ?_⟩
  · intro p hp
    obtain ⟨q, hq, hpq⟩ := List.mem_map.mp hp
    by_cases hqu : q.1 = u
    · rw [if_pos hqu] at hpq
      subst hpq
      rcases hpos with ⟨hk, hc1, hc2⟩ | ⟨hk, hc1, hc2⟩
      · refine Or.inl ⟨hk, ?_, ?_⟩
        · show nd2.count q.1 = 1
          rw [hqu]
          exact hc1
        · show res2.count q.1 = 0
          rw [hqu]
          exact hc2
      · refine Or.inr ⟨hk, ?_, ?_⟩
        · show res2.count q.1 = 1
          rw [hqu]
          exact hc1
        · show nd2.count q.1 = 0
          rw [hqu]
          exact hc2
    · rw [if_neg hqu] at hpq
      subst hpq
      rcases hplaced q hq with ⟨k1, k2, k3⟩ | ⟨k1, k2, k3⟩
      · refine Or.inl ⟨k1, ?_, ?_⟩
        · show nd2.count q.1 = 1
          rw [(hold q.1 hqu).1]
          exact k2
        · show res2.count q.1 = 0
          rw [(hold q.1 hqu).2]
          exact k3
      · refine Or.inr ⟨k1, ?_, ?_⟩
        · show res2.count q.1 = 1
          rw [(hold q.1 hqu).2]
          exact k2
        · show nd2.count q.1 = 0
          rw [(hold q.1 hqu).1]
          exact k3
  · intro x hx
    show (findUnit (b.units.map
      (fun p => if p.1 = u then (p.1, { p.2 with position := pos }) else p))
        x).isSome = true
    rw [hiso x]
    rcases hmnd x hx with hxu | hxold
    · subst hxu
      exact hfu
    · exact hnd x hxold
  · intro x hx
    show (findUnit (b.units.map
      (fun p => if p.1 = u then (p.1, { p.2 with position := pos }) else p))
        x).isSome = true
    rw [hiso x]
    rcases hmres x hx with hxu | hxold
    · subst hxu
      exact hfu
    · exact hres x hxold

theorem inv_deployUnit (b : Battle) (u r c : String) (b2 : Battle)
    (h : BattleInv b) (hdp : b.deployUnit u r c = some b2) : BattleInv b2 := by
  unfold Battle.deployUnit at hdp
  cases hfu : findUnit b.units u with
  | none =>
    simp only [hfu] at hdp
    have hb := Option.some.inj hdp
    subst hb
    exact h
  | some un =>
    simp only [hfu] at hdp
    by_cases hndres : r = "reserve" ∨ r = "not_deployed"
    · have hcond1 : ¬(r ≠ "reserve" ∧ r ≠ "not_deployed"
          ∧ gridPositionsVal c = none) := by
        rcases hndres with h1 | h1 <;> subst h1 <;> simp
      have hcond2 : ¬(r ≠ "reserve" ∧ r ≠ "not_deployed") := by
        rcases hndres with h1 | h1 <;> subst h1 <;> simp
      rw [if_neg hcond1, if_neg hcond2] at hdp
      unfold deployMove at hdp
      obtain ⟨hcells, hplaced, hnd, hres⟩ := h
      have hmem : (u, un) ∈ b.units := findUnit_mem b.units u un hfu
      have hfus : (findUnit b.units u).isSome := by rw [hfu]; rfl
      rcases hplaced (u, un) hmem with ⟨h1, h2, h3⟩ | ⟨h1, h2, h3⟩
      · rw [h1, vacate_nd] at hdp
        rcases hndres with hrr | hrr
        · subst hrr
          have hb := Option.some.inj hdp
          subst hb
          refine inv_mk_move b u { rank := "reserve", column := none }
            (b.grid.not_deployed.filter (fun x => x != u))
            (b.grid.reserve ++ [u])
            ⟨hcells, hplaced, hnd, hres⟩ hfus ?_ ?_ ?_ ?_
          · refine Or.inr ⟨rfl, ?_, ?_⟩
            · simp [List.count_append, List.count_cons, h3]
            · exact count_filter_self _ _
          · intro x hxu
            exact ⟨count_filter_ne _ _ _ hxu,
              by simp [List.count_append, List.count_cons, hxu]⟩
          · intro x hx
            exact Or.inr (List.mem_filter.mp hx).1
          · intro x hx
            rcases List.mem_append.mp hx with h4 | h4
            · exact Or.inr h4
            · simp at h4
              exact Or.inl h4
        · subst hrr
          have hb := Option.some.inj hdp
          subst hb
          refine inv_mk_move b u { rank := "not_deployed", column := none }
            (b.grid.not_deployed.filter (fun x => x != u) ++ [u])
            b.grid.reserve
            ⟨hcells, hplaced, hnd, hres⟩ hfus ?_ ?_ ?_ ?_
          · refine Or.inl ⟨rfl, ?_, ?_⟩
            · simp [List.count_append, List.count_cons, count_filter_self]
            · exact h3
          · intro x hxu
            exact ⟨by simp [List.count_append, List.count_cons,
              count_filter_ne _ _ _ hxu, hxu], rfl⟩
          · intro x hx
            rcases List.mem_append.mp hx with h4 | h4
            · exact Or.inr (List.mem_filter.mp h4).1
            · simp at h4
              exact Or.inl h4
          · intro x hx
            exact Or.inr hx
      · rw [h1, vacate_res] at hdp
        rcases hndres with hrr | hrr
        · subst hrr
          have hb := Option.some.inj hdp
          subst hb
          refine inv_mk_move b u { rank := "reserve", column := none }
            b.grid.not_deployed
            (b.grid.reserve.filter (fun x => x != u) ++ [u])
            ⟨hcells, hplaced, hnd, hres⟩ hfus ?_ ?_ ?_ ?_
          · refine Or.inr ⟨rfl, ?_, ?_⟩
            · simp [List.count_append, List.count_cons, count_filter_self]
            · exact h3
          · intro x hxu
            exact ⟨rfl, by simp [List.count_append, List.count_cons,
              count_filter_ne _ _ _ hxu, hxu]⟩
          · intro x hx
            exact Or.inr hx
          · intro x hx
            rcases List.mem_append.mp hx with h4 | h4
            · exact Or.inr (List.mem_filter.mp h4).1
            · simp at h4
              exact Or.inl h4
        · subst hrr
          have hb := Option.some.inj hdp
          subst hb
          refine inv_mk_move b u { rank := "not_deployed", column := none }
            (b.grid.not_deployed ++ [u])
            (b.grid.reserve.filter (fun x => x != u))
            ⟨hcells, hplaced, hnd, hres⟩ hfus ?_ ?_ ?_ ?_
          · refine Or.inl ⟨rfl, ?_, ?_⟩
            · simp [List.count_append, List.count_cons, h3]
            · exact count_filter_self _ _
          · intro x hxu
            exact ⟨by simp [List.count_append, List.count_cons, hxu],
              count_filter_ne _ _ _ hxu⟩
          · intro x hx
            rcases List.mem_append.mp hx with h4 | h4
            · exact Or.inr h4
            · simp at h4
              exact Or.inl h4
          · intro x hx
            exact Or.inr (List.mem_filter.mp hx).1
    · push_neg at hndres
      by_cases hgpv : gridPositionsVal c = none
      · rw [if_pos ⟨hndres.1, hndres.2, hgpv⟩] at hdp
        have hb := Option.some.inj hdp
        subst hb
        exact h
      · rw [if_neg (by intro hcon; exact hgpv hcon.2.2)] at hdp
        rw [if_pos ⟨hndres.1, hndres.2⟩] at hdp
        cases hrow : b.grid.row? r with
        | none =>
          simp only [hrow] at hdp
          exact Option.noConfusion hdp
        | some row =>
          simp only [hrow] at hdp
          have hocc : row.get c = none := row_get_of_gpv row c hgpv
          rw [if_pos (by simp [hocc])] at hdp
          have hb := Option.some.inj hdp
          subst hb
          exact h

theorem inv_applyBOp (b : Battle) (op : BOp) (h : BattleInv b) :
    BattleInv (applyBOp b op) := by
  cases op with
  | addDomain d => exact inv_addDomain b d h
  | removeDomain d => exact inv_removeDomain_getD b d h
  | addUnit u d => exact inv_addUnit b u d h
  | removeUnit u => exact inv_removeUnit_getD b u h
  | deploy u r c =>
    show BattleInv ((b.deployUnit u r c).getD b)
    cases hdp : b.deployUnit u r c with
    | none => exact h
    | some b2 => exact inv_deployUnit b u r c b2 h hdp

theorem inv_runOps (ops : List BOp) :
    ∀ b : Battle, BattleInv b → BattleInv (runOps b ops) := by
  induction ops with
  | nil =>
    intro b h
    exact h
  | cons op t ih =>
    intro b h
    exact ih (applyBOp b op) (inv_applyBOp b op h)

theorem occupies_of_inv (b : Battle) (h : BattleInv b) :
    ∀ p ∈ b.units, occupiesExactlyOne b p.1 p.2 := by
  intro p hp
  obtain ⟨hcells, hplaced, hnd2, hres2⟩ := h
  have hc0 : cellOccCount b.grid p.1 = 0 := by
    unfold cellOccCount
    rw [hcells.1, hcells.2.1, hcells.2.2]
    rfl
  rcases hplaced p hp with ⟨h1, h2, h3⟩ | ⟨h1, h2, h3⟩
  · exact Or.inl ⟨h1, h2, h3, hc0⟩
  · exact Or.inr (Or.inl ⟨h1, h2, h3, hc0⟩)

theorem deploy_occupied_rejected (b : Battle) (u r c u2 : String)
    (hocc : (b.grid.row? r).bind (fun row => row.get c) = some (some u2))
    (hne : u2 ≠ u) :
    b.deployUnit u r c = some b := by
  cases hrow : b.grid.row? r with
  | none =>
    rw [hrow] at hocc
    simp at hocc
  | some row =>
    rw [hrow] at hocc
    simp only [Option.some_bind] at hocc
    have hr : r = "vanguard" ∨ r = "center" ∨ r = "rear" := by
      by_contra hno
      push_neg at hno
      obtain ⟨n1, n2, n3⟩ := hno
      unfold Grid.row? at hrow
      rw [if_neg n1, if_neg n2, if_neg n3] at hrow
      exact Option.noConfusion hrow
    have hrne1 : r ≠ "reserve" := by
      rcases hr with h1 | h1 | h1 <;> subst h1 <;> decide
    have hrne2 : r ≠ "not_deployed" := by
      rcases hr with h1 | h1 | h1 <;> subst h1 <;> decide
    have hcl : c = "left" ∨ c = "center" ∨ c = "right" := by
      by_contra hno
      push_neg at hno
      obtain ⟨n1, n2, n3⟩ := hno
      unfold Row.get at hocc
      rw [if_neg n1, if_neg n2, if_neg n3] at hocc
      exact Option.noConfusion hocc
    have hgpv : gridPositionsVal c = none := by
      rcases hcl with h1 | h1 | h1 <;> subst h1 <;> rfl
    unfold Battle.deployUnit
    cases hfu : findUnit b.units u with
    | none => rfl
    | some un =>
      show (if r ≠ "reserve" ∧ r ≠ "not_deployed" ∧ gridPositionsVal c = none
        then some b
        else if r ≠ "reserve" ∧ r ≠ "not_deployed" then
          match b.grid.row? r with
          | none => none
          | some row =>
            if row.get c ≠ some none then some b
            else deployMove b un u r c
        else deployMove b un u r c) = some b
      rw [if_pos ⟨hrne1, hrne2, hgpv⟩]

/-- C1: every battle reachable from `createBattle` by addDomain,
removeDomain, addUnit, removeUnit and deployUnit keeps every unit id of
the units map in exactly one grid location, the one its position field
records; and `deployUnit` aimed at a structured cell already occupied by
a different unit returns the battle unchanged, never overwriting the
occupant. -/
theorem grid_exclusivity :
    (∀ (id name : String) (ops : List BOp),
      ∀ p ∈ (runOps (createBattle id name) ops).units,
        occupiesExactlyOne (runOps (createBattle id name) ops) p.1 p.2)
    ∧ (∀ (b : Battle) (u r c u2 : String),
        (b.grid.row? r).bind (fun row => row.get c) = some (some u2) →
        u2 ≠ u →
        b.deployUnit u r c = some b) := by
  constructor
  · intro id name ops p hp
    exact occupies_of_inv (runOps (createBattle id name) ops)
      (inv_runOps ops (createBattle id name) (inv_createBattle id name)) p hp
  · exact deploy_occupied_rejected

/-- A short concrete history: a domain, a unit, a move to reserve. -/
def opsW : List BOp :=
  [BOp.addDomain "A", BOp.addUnit "U" "A", BOp.deploy "U" "reserve" "x"]

/-- The unit record `opsW` produces for "U". -/
def uW : BUnit :=
  { id := "U", domainId := "A",
    position := { rank := "reserve", column := none },
    activated := false, usedReaction := false, tokens := [] }

/-- A battle whose vanguard/left cell is occupied by "u1" while "u2"
waits undeployed. -/
def bOcc : Battle :=
  { id := "b", name := "b", phase := "deployment", round := 0,
    domains := ["A"],
    units := [("u1",
      { id := "u1", domainId := "A",
        position := { rank := "vanguard", column := some "left" },
        activated := false, usedReaction := false, tokens := [] }),
      ("u2",
      { id := "u2", domainId := "A",
        position := { rank := "not_deployed", column := none },
        activated := false, usedReaction := false, tokens := [] })],
    grid := { vanguard := { left := some "u1", center := none, right := none },
              center := {}, rear := {}, reserve := [],
              not_deployed := ["u2"] },
    initiative := [], currentTurn := JSNum.num 0, log := [] }

theorem grid_exclusivity_witness :
    occupiesExactlyOne (runOps (createBattle "b" "n") opsW) "U" uW
    ∧ Battle.deployUnit bOcc "u2" "vanguard" "left" = some bOcc :=
  ⟨grid_exclusivity.1 "b" "n" opsW ("U", uW) (by decide),
   grid_exclusivity.2 bOcc "u2" "vanguard" "left" "u1" (by decide) (by decide)⟩
